import Mathlib

/-!
Shallow embedding of HasamiShogiGame.py (class HasamiShogiGame) and proofs
checking the natural-language specification against it.

The board of the Python class is the 9 x 9 list of lists "_board_status"
holding the strings NONE / BLACK / RED; we embed it as a total function
from a pair of natural-number coordinates to an occupant value.  Positions
travel through the public interface as two-character strings (letter row,
digit column); we embed strings as lists of characters.  Fallible Python
code (uncaught ValueError from int(), uncaught UnboundLocalError in the
row-increasing capture scan) is embedded with Option, where none stands
for an uncaught exception escaping the call.
-/

namespace HasamiShogi

/-- Occupant of a board cell: the strings NONE, BLACK, RED of the source. -/
inductive Occ where
  | NONE
  | BLACK
  | RED
deriving DecidableEq, Repr

/-- Result of get_game_state: the strings UNFINISHED, BLACK_WON, RED_WON. -/
inductive GameStatus where
  | UNFINISHED
  | BLACK_WON
  | RED_WON
deriving DecidableEq, Repr

/-- The board _board_status: row index (0 = row 'a') and column index (0 = column '1')
to occupant.  The Python object is a 9 x 9 list of lists; all reads and writes
performed by the class stay inside 0..8 on both axes, so a total function is a
faithful embedding of the reachable accesses. -/
abbrev Board := Nat → Nat → Occ

/-- Embedding of the single-cell write board[x][y] = piece performed by
_set_square_status after coordinate translation. -/
def setSq (b : Board) (x y : Nat) (v : Occ) : Board :=
  fun i j => if i = x ∧ j = y then v else b i j

/-- Embedding of position_to_coords (source lines 103-109):
x = ord(position[0]) - ord('a'), y = int(position[1]) - 1.
The method is only reached on two-character positions whose second character
is a decimal digit (the validator checks this first), where int(d) is the
digit value d.toNat - 48.  The catch-all arm is never reached by the class. -/
def positionToCoords : List Char → Nat × Nat
  | [c, d] => (c.toNat - 97, (d.toNat - 48) - 1)
  | _ => (0, 0)

/-- Embedding of coords_to_position (source lines 111-115):
chr(ord('a') + x) concatenated with str(y + 1).  The class only calls it with
y in 0..8, where str(y + 1) is the single digit character of value y + 1. -/
def coordsToPosition (x y : Nat) : List Char :=
  [Char.ofNat (97 + x), Char.ofNat (48 + (y + 1))]

/-- Embedding of get_square_occupant (source lines 117-124): translate the
position and read the board cell. -/
def occupantAt (b : Board) (pos : List Char) : Occ :=
  b (positionToCoords pos).1 (positionToCoords pos).2

/-- Embedding of _set_square_status (source lines 126-134): translate the
position and write the board cell. -/
def setSqPos (b : Board) (pos : List Char) (v : Occ) : Board :=
  setSq b (positionToCoords pos).1 (positionToCoords pos).2 v

/-- Count of the cells of the 9 x 9 grid holding occupant c: the nested
counting loops of get_game_state (source lines 74-81). -/
def countColor (b : Board) (c : Occ) : Nat :=
  (((Finset.range 9) ×ˢ (Finset.range 9)).filter (fun p => b p.1 p.2 = c)).card

/-- Embedding of get_game_state (source lines 70-87): count the pieces of
each color, then the if / elif / else chain on the two counts. -/
def getGameState (b : Board) : GameStatus :=
  if 1 < countColor b Occ.BLACK ∧ 1 < countColor b Occ.RED then .UNFINISHED
  else if 1 < countColor b Occ.BLACK then .BLACK_WON
  else .RED_WON

/-- The enemy color computed at the top of piece_capture (source lines 248-250):
enemy starts as BLACK and becomes RED when color is BLACK. -/
def enemyOf (c : Occ) : Occ :=
  if c = Occ.BLACK then Occ.RED else Occ.BLACK

/-- Full game state of one HasamiShogiGame object: the board, _current_player,
and the two entries of the _captured_pieces dictionary. -/
structure GameState where
  board : Board
  player : Occ
  capBlack : Nat
  capRed : Nat

/-- Board built by the constructor (source lines 42-46): row 0 BLACK,
row 8 RED, interior NONE. -/
def initBoard : Board :=
  fun x _ => if x = 0 then Occ.BLACK else if x = 8 then Occ.RED else Occ.NONE

/-- State built by the constructor (source lines 36-48): initial board,
BLACK to move, both captured counts zero. -/
def initGame : GameState :=
  ⟨initBoard, Occ.BLACK, 0, 0⟩

/-- Outcome of one directional scan loop of try_capture:
empty stands for the early return on a NONE cell, edge k for falling out of
the while loop at the board edge having counted k enemy pieces (do_capture
stays False, yet k is still added to the captured count at source line 242),
friend k for the break on an own piece after counting k enemy pieces
(do_capture becomes True). -/
inductive ScanRes where
  | empty
  | edge (k : Nat)
  | friend (k : Nat)
deriving DecidableEq, Repr

/-- Effect of one more enemy cell in front of an already scanned tail:
captured_piece increases by one unless the tail ended in the early return. -/
def ScanRes.bump : ScanRes → ScanRes
  | .empty => .empty
  | .edge k => .edge (k + 1)
  | .friend k => .friend (k + 1)

/-- Scan loop of the rowminus branch of try_capture (source lines 169-182):
walk the columns of row x downward from the start column while the index
stays nonnegative.  The three loop tests compare the cell against NONE, the
enemy color and the mover color; these are exhaustive because the mover color
passed in by piece_capture is BLACK or RED and the enemy is its opposite, so
the final arm is the own-piece break. -/
def scanRowMinus (b : Board) (color : Occ) (x : Nat) : Nat → ScanRes
  | 0 =>
    if b x 0 = Occ.NONE then .empty
    else if b x 0 = enemyOf color then .edge 1
    else .friend 0
  | y + 1 =>
    if b x (y + 1) = Occ.NONE then .empty
    else if b x (y + 1) = enemyOf color then (scanRowMinus b color x y).bump
    else .friend 0

/-- Scan loop of the colminus branch of try_capture (source lines 205-218):
walk the rows of column y upward in decreasing row index. -/
def scanColMinus (b : Board) (color : Occ) (y : Nat) : Nat → ScanRes
  | 0 =>
    if b 0 y = Occ.NONE then .empty
    else if b 0 y = enemyOf color then .edge 1
    else .friend 0
  | x + 1 =>
    if b (x + 1) y = Occ.NONE then .empty
    else if b (x + 1) y = enemyOf color then (scanColMinus b color y x).bump
    else .friend 0

/-- Scan loop of the rowplus branch of try_capture (source lines 187-200):
while y < 9, with the fuel argument 9 - y making the recursion structural.
Fuel 0 is the loop test failing, which in the source falls through with
do_capture False and captured_piece as counted so far: the edge outcome. -/
def scanRowPlusAux (b : Board) (color : Occ) (x : Nat) : Nat → Nat → ScanRes
  | 0, _ => .edge 0
  | fuel + 1, y =>
    if b x y = Occ.NONE then .empty
    else if b x y = enemyOf color then (scanRowPlusAux b color x fuel (y + 1)).bump
    else .friend 0

/-- Scan of the rowplus branch started at column y. -/
def scanRowPlus (b : Board) (color : Occ) (x y : Nat) : ScanRes :=
  scanRowPlusAux b color x (9 - y) y

/-- Scan loop of the colplus branch of try_capture (source lines 223-236):
while x < 9, with fuel 9 - x. -/
def scanColPlusAux (b : Board) (color : Occ) (y : Nat) : Nat → Nat → ScanRes
  | 0, _ => .edge 0
  | fuel + 1, x =>
    if b x y = Occ.NONE then .empty
    else if b x y = enemyOf color then (scanColPlusAux b color y fuel (x + 1)).bump
    else .friend 0

/-- Scan of the colplus branch started at row x. -/
def scanColPlus (b : Board) (color : Occ) (x y : Nat) : ScanRes :=
  scanColPlusAux b color y (9 - x) x

/-- Removal loop of the rowminus branch (source lines 183-186): clear the k
cells at columns save_y, save_y - 1, ..., save_y - k + 1 of row x. -/
def clearRowDown : Board → Nat → Nat → Nat → Board
  | b, _, _, 0 => b
  | b, x, y, k + 1 => clearRowDown (setSq b x y Occ.NONE) x (y - 1) k

/-- Removal loop of the colminus branch (source lines 219-222): clear the k
cells at rows save_x, save_x - 1, ..., save_x - k + 1 of column y. -/
def clearColDown : Board → Nat → Nat → Nat → Board
  | b, _, _, 0 => b
  | b, x, y, k + 1 => clearColDown (setSq b x y Occ.NONE) (x - 1) y k

/-- Removal loop of the colplus branch (source lines 237-240): clear the k
cells at rows save_x, save_x + 1, ..., save_x + k - 1 of column y. -/
def clearColUp : Board → Nat → Nat → Nat → Board
  | b, _, _, 0 => b
  | b, x, y, k + 1 => clearColUp (setSq b x y Occ.NONE) (x + 1) y k

/-- The four direction strings accepted by try_capture. -/
inductive Direction where
  | rowminus
  | rowplus
  | colminus
  | colplus
deriving DecidableEq, Repr

/-- Embedding of try_capture (source lines 162-242) for one direction,
started at cell (x, y), mover color given; returns the board after the
branch together with the amount added to the enemy entry of
_captured_pieces at line 242, or none for an uncaught exception.

The early return on a NONE cell skips line 242, so nothing is added; the
edge outcome falls through to line 242 with do_capture still False, so the
counted run length is added although no cell was cleared; the friend
outcome clears the counted run and adds its length.  In the rowplus branch
the removal loop (source line 202) reads the local variable save_y, which
that branch never assigns (it assigns save_x at line 188): when do_capture
is True the branch raises UnboundLocalError, embedded as none. -/
def tryCapture (b : Board) (color : Occ) (x y : Nat) : Direction → Option (Board × Nat)
  | .rowminus =>
    match scanRowMinus b color x y with
    | .empty => some (b, 0)
    | .edge k => some (b, k)
    | .friend k => some (clearRowDown b x y k, k)
  | .rowplus =>
    match scanRowPlus b color x y with
    | .empty => some (b, 0)
    | .edge k => some (b, k)
    | .friend _ => none
  | .colminus =>
    match scanColMinus b color y x with
    | .empty => some (b, 0)
    | .edge k => some (b, k)
    | .friend k => some (clearColDown b x y k, k)
  | .colplus =>
    match scanColPlus b color x y with
    | .empty => some (b, 0)
    | .edge k => some (b, k)
    | .friend k => some (clearColUp b x y k, k)

/-- Embedding of the corner-capture if / elif chain of piece_capture
(source lines 251-283): eight hardcoded destination cases, each checking the
other neighbor of a corner for the mover color and the corner for the enemy,
clearing the corner and adding one to the enemy captured count.  Returns the
board after the chain and the amount added. -/
def cornerCapture (b : Board) (dest : List Char) (color : Occ) : Board × Nat :=
  if dest = ['a', '2'] ∧ occupantAt b ['b', '1'] = color ∧ occupantAt b ['a', '1'] = enemyOf color then
    (setSqPos b ['a', '1'] Occ.NONE, 1)
  else if dest = ['a', '8'] ∧ occupantAt b ['b', '9'] = color ∧ occupantAt b ['a', '9'] = enemyOf color then
    (setSqPos b ['a', '9'] Occ.NONE, 1)
  else if dest = ['i', '2'] ∧ occupantAt b ['h', '1'] = color ∧ occupantAt b ['i', '1'] = enemyOf color then
    (setSqPos b ['i', '1'] Occ.NONE, 1)
  else if dest = ['i', '8'] ∧ occupantAt b ['h', '9'] = color ∧ occupantAt b ['i', '9'] = enemyOf color then
    (setSqPos b ['i', '9'] Occ.NONE, 1)
  else if dest = ['b', '1'] ∧ occupantAt b ['a', '2'] = color ∧ occupantAt b ['a', '1'] = enemyOf color then
    (setSqPos b ['a', '1'] Occ.NONE, 1)
  else if dest = ['b', '9'] ∧ occupantAt b ['a', '8'] = color ∧ occupantAt b ['a', '9'] = enemyOf color then
    (setSqPos b ['a', '9'] Occ.NONE, 1)
  else if dest = ['h', '1'] ∧ occupantAt b ['i', '2'] = color ∧ occupantAt b ['i', '1'] = enemyOf color then
    (setSqPos b ['i', '1'] Occ.NONE, 1)
  else if dest = ['h', '9'] ∧ occupantAt b ['i', '8'] = color ∧ occupantAt b ['i', '9'] = enemyOf color then
    (setSqPos b ['i', '9'] Occ.NONE, 1)
  else (b, 0)

/-- Directional part of piece_capture (source lines 284-295): the four
guarded try_capture calls from the destination coordinates (x, y), run in
source order on the board b0 left by the corner chain, accumulating the
amounts added to the enemy captured count on top of the corner amount c0.
An exception in any directional call (the rowplus UnboundLocalError)
escapes, giving none. -/
def pieceCaptureAux (b0 : Board) (c0 : Nat) (color : Occ) (x y : Nat) : Option (Board × Nat) :=
  match (if 1 < y then tryCapture b0 color x (y - 1) .rowminus else some (b0, 0)) with
  | none => none
  | some r1 =>
    match (if y < 8 then tryCapture r1.1 color x (y + 1) .rowplus else some (r1.1, 0)) with
    | none => none
    | some r2 =>
      match (if 1 < x then tryCapture r2.1 color (x - 1) y .colminus else some (r2.1, 0)) with
      | none => none
      | some r3 =>
        match (if x < 8 then tryCapture r3.1 color (x + 1) y .colplus else some (r3.1, 0)) with
        | none => none
        | some r4 => some (r4.1, c0 + r1.2 + r2.2 + r3.2 + r4.2)

/-- Embedding of piece_capture packaged as the corner chain followed by the
four directional scans from the destination coordinates. -/
def pieceCapture (b : Board) (dest : List Char) (color : Occ) : Option (Board × Nat) :=
  pieceCaptureAux (cornerCapture b dest color).1 (cornerCapture b dest color).2 color
    (positionToCoords dest).1 (positionToCoords dest).2

/-- Rejection reasons of is_valid_move, one per early-return print of the
source (lines 310-367), in source order. -/
inductive Reason where
  | badToLen
  | badFromLen
  | badToRow
  | badFromRow
  | diagonal
  | badToCol
  | badFromCol
  | destOccupied
  | sourceEmpty
  | notOwned
  | pathBlocked
deriving DecidableEq, Repr

/-- Outcome of the validator: acceptance, a rejection with its reason, or an
uncaught exception (the ValueError raised by int() on a non-digit character). -/
inductive VRes where
  | ok
  | rej (r : Reason)
  | error
deriving DecidableEq, Repr

/-- The row letter string abcdefghi of is_valid_move (source line 308). -/
def rowChars : List Char := ['a', 'b', 'c', 'd', 'e', 'f', 'g', 'h', 'i']

/-- Embedding of the Python call int(c) on a one-character string: the digit
value for a decimal digit, none for the ValueError raised otherwise. -/
def pyCharInt (c : Char) : Option Nat :=
  if 48 ≤ c.toNat ∧ c.toNat ≤ 57 then some (c.toNat - 48) else none

/-- The set of coordinates strictly between a and b, the cells visited by the
path-clearance loops of is_valid_move (source lines 346-367): range(start,
stop, step) with start next to the origin and stop the destination,
ascending or descending with the move; the descending loop visits the same
set of cells in the opposite order, which the all-clear check does not see. -/
def betweenL (a b : Nat) : List Nat :=
  if a < b then List.range' (a + 1) (b - a - 1) else List.range' (b + 1) (a - b - 1)

/-- Embedding of is_valid_move (source lines 297-368) with the reason of the
first failing check, in the exact source order: length of the to string,
length of the from string, row letter of to, row letter of from, the
diagonal test, the int() range test on the to column (int raising ValueError
on a non-digit: error), the same on the from column, then destination
occupancy, empty source, wrong ownership, and path clearance.  The final
arm of the path check is unreachable (the diagonal test has already forced a
shared row or column).  Board reads go through the same coordinate
translation as the source. -/
def isValidMoveR (st : GameState) (f t : List Char) : VRes :=
  match t, f with
  | [tc, td], [fc, fd] =>
    if tc ∉ rowChars then .rej .badToRow
    else if fc ∉ rowChars then .rej .badFromRow
    else if td ≠ fd ∧ tc ≠ fc then .rej .diagonal
    else
      match pyCharInt td with
      | none => .error
      | some n =>
        if n < 1 ∨ 9 < n then .rej .badToCol
        else
          match pyCharInt fd with
          | none => .error
          | some m =>
            if m < 1 ∨ 9 < m then .rej .badFromCol
            else
              if occupantAt st.board [tc, td] ≠ Occ.NONE then .rej .destOccupied
              else if occupantAt st.board [fc, fd] = Occ.NONE then .rej .sourceEmpty
              else if occupantAt st.board [fc, fd] ≠ st.player then .rej .notOwned
              else
                if (positionToCoords [tc, td]).1 = (positionToCoords [fc, fd]).1 then
                  if ∀ i ∈ betweenL (positionToCoords [fc, fd]).2 (positionToCoords [tc, td]).2,
                      st.board (positionToCoords [tc, td]).1 i = Occ.NONE then .ok
                  else .rej .pathBlocked
                else if (positionToCoords [tc, td]).2 = (positionToCoords [fc, fd]).2 then
                  if ∀ i ∈ betweenL (positionToCoords [fc, fd]).1 (positionToCoords [tc, td]).1,
                      st.board i (positionToCoords [tc, td]).2 = Occ.NONE then .ok
                  else .rej .pathBlocked
                else .ok
  | t, _ => if t.length ≠ 2 then .rej .badToLen else .rej .badFromLen

/-- Embedding of make_move (source lines 136-160): reject when the game is
already decided, reject on an invalid move, otherwise read the moving piece,
write the destination, clear the origin, resolve captures from the
destination, add the resolved amount to the enemy entry of _captured_pieces,
toggle _current_player unconditionally, and report True.  none stands for an
uncaught exception escaping make_move (from int() in the validator or from
the rowplus branch of try_capture).  The local variable piece of the source
is the occupant read from the origin square before the two writes; it is
written inline here. -/
def makeMove (st : GameState) (f t : List Char) : Option (Bool × GameState) :=
  if getGameState st.board ≠ .UNFINISHED then some (false, st)
  else
    match isValidMoveR st f t with
    | .error => none
    | .rej _ => some (false, st)
    | .ok =>
      match pieceCapture (setSqPos (setSqPos st.board t (occupantAt st.board f)) f Occ.NONE) t
          (occupantAt st.board f) with
      | none => none
      | some r =>
        some (true,
          ⟨r.1,
           if st.player = Occ.RED then Occ.BLACK else Occ.RED,
           st.capBlack + (if enemyOf (occupantAt st.board f) = Occ.BLACK then r.2 else 0),
           st.capRed + (if enemyOf (occupantAt st.board f) = Occ.RED then r.2 else 0)⟩)


/-- Helper to build concrete test boards: the listed cells hold BLACK or RED,
every other cell NONE. -/
def mkBoard (blacks reds : List (Nat × Nat)) : Board :=
  fun x y => if (x, y) ∈ blacks then Occ.BLACK else if (x, y) ∈ reds then Occ.RED else Occ.NONE

/-- Test state for the broken rowplus capture: BLACK at a3 and e5, RED at e4
and i9, BLACK to move.  The move a3 to e3 closes a flank on the RED piece at
e4 against the BLACK piece at e5 in the row-increasing direction. -/
def crashState : GameState := ⟨mkBoard [(0, 2), (4, 4)] [(4, 3), (8, 8)], Occ.BLACK, 0, 0⟩

/-- Test state for a working rowminus capture: BLACK at e1, e9 and g7, RED at
e2, e3, i1 and i5, BLACK to move.  The move e9 to e4 closes a flank on the
RED run e3, e2 against the BLACK piece at e1 in the row-decreasing direction. -/
def runCaptureState : GameState :=
  ⟨mkBoard [(4, 0), (4, 8), (6, 6)] [(4, 1), (4, 2), (8, 0), (8, 4)], Occ.BLACK, 0, 0⟩

/-- Test state for the edge-run miscount: BLACK at e9 and g5, RED at e1 and
e2, BLACK to move.  After the move e9 to e3 the row-decreasing scan walks the
RED run e2, e1 off the board edge without meeting a BLACK piece. -/
def edgeRunState : GameState := ⟨mkBoard [(4, 8), (6, 4)] [(4, 0), (4, 1)], Occ.BLACK, 0, 0⟩

/-- Test state one capture away from the end: BLACK at e1 and e9, RED at e2
and i9, BLACK to move.  The move e9 to e3 captures e2, leaving RED a single
piece. -/
def terminalState : GameState := ⟨mkBoard [(4, 0), (4, 8)] [(4, 1), (8, 8)], Occ.BLACK, 0, 0⟩

/-- Board on which the game is decided: two BLACK pieces, one RED piece. -/
def wonBoard : Board := mkBoard [(0, 0), (0, 1)] [(8, 8)]

/-- State whose game is already decided. -/
def overState : GameState := ⟨wonBoard, Occ.BLACK, 0, 0⟩

/-- Result of the accepted opening move a1 to b1 from the initial state. -/
def acceptedMove : Bool × GameState :=
  (makeMove initGame ['a', '1'] ['b', '1']).getD (false, initGame)

/-- Board exercising the corner rule at a1: BLACK at a2 and b1, RED on the
a1 corner, as seen by the corner chain after the move into a2. -/
def cornerBoard : Board := mkBoard [(0, 1), (1, 0)] [(0, 0)]

/-- The eight corner configurations handled by the chain of piece_capture,
as triples of destination, other neighbor and corner: both neighbors of each
of the four corners appear as the destination. -/
def cornerCases : List (List Char × List Char × List Char) :=
  [(['a', '2'], ['b', '1'], ['a', '1']), (['a', '8'], ['b', '9'], ['a', '9']),
   (['i', '2'], ['h', '1'], ['i', '1']), (['i', '8'], ['h', '9'], ['i', '9']),
   (['b', '1'], ['a', '2'], ['a', '1']), (['b', '9'], ['a', '8'], ['a', '9']),
   (['h', '1'], ['i', '2'], ['i', '1']), (['h', '9'], ['i', '8'], ['i', '9'])]

/-- The digit characters of the valid position columns. -/
def digitChars : List Char := ['1', '2', '3', '4', '5', '6', '7', '8', '9']

/-- Relation between a board and the board left by a capture phase: a cell is
either untouched or was an enemy piece and is now empty.  This is the shape
of every mutation performed by piece_capture. -/
def capturesOnly (e : Occ) (b bb : Board) : Prop :=
  ∀ x y, bb x y = b x y ∨ (b x y = e ∧ bb x y = Occ.NONE)

lemma capturesOnly_refl (e : Occ) (b : Board) : capturesOnly e b b :=
  fun _ _ => Or.inl rfl

lemma capturesOnly_trans {e : Occ} (he : e ≠ Occ.NONE) {b1 b2 b3 : Board}
    (h12 : capturesOnly e b1 b2) (h23 : capturesOnly e b2 b3) : capturesOnly e b1 b3 := by
  intro x y
  rcases h23 x y with h | ⟨h2e, h3n⟩
  · rcases h12 x y with h2 | ⟨h1e, h2n⟩
    · exact Or.inl (h.trans h2)
    · exact Or.inr ⟨h1e, h.trans h2n⟩
  · rcases h12 x y with h2 | ⟨h1e, h2n⟩
    · exact Or.inr ⟨h2.symm.trans h2e, h3n⟩
    · exact absurd (h2n.symm.trans h2e).symm he

lemma setSq_self (b : Board) (x y : Nat) (v : Occ) : setSq b x y v x y = v := by
  simp [setSq]

lemma setSq_ne (b : Board) (x y : Nat) (v : Occ) (i j : Nat) (h : ¬(i = x ∧ j = y)) :
    setSq b x y v i j = b i j := by
  simp [setSq, h]

lemma capturesOnly_setSq {e : Occ} {b : Board} {x y : Nat} (h : b x y = e) :
    capturesOnly e b (setSq b x y Occ.NONE) := by
  intro i j
  by_cases hij : i = x ∧ j = y
  · obtain ⟨hi, hj⟩ := hij
    subst hi; subst hj
    exact Or.inr ⟨h, setSq_self b i j Occ.NONE⟩
  · exact Or.inl (setSq_ne b x y Occ.NONE i j hij)

lemma enemyOf_ne_none (c : Occ) : enemyOf c ≠ Occ.NONE := by
  unfold enemyOf; split <;> simp

lemma ne_enemyOf_self {c : Occ} (h : c ≠ Occ.NONE) : c ≠ enemyOf c := by
  cases c <;> simp_all [enemyOf]

lemma countColor_eq_sum (b : Board) (c : Occ) :
    countColor b c
      = ∑ p ∈ (Finset.range 9) ×ˢ (Finset.range 9), if b p.1 p.2 = c then 1 else 0 := by
  classical
  exact Finset.card_filter _ _

/-- Effect of one cell write on a color count, as a cancellation-free equation. -/
lemma countColor_setSq (b : Board) (x y : Nat) (v c : Occ) (hx : x < 9) (hy : y < 9) :
    countColor (setSq b x y v) c + (if b x y = c then 1 else 0)
      = countColor b c + (if v = c then 1 else 0) := by
  classical
  have hmem : ((x, y) : Nat × Nat) ∈ (Finset.range 9) ×ˢ (Finset.range 9) := by
    simp [Finset.mem_product, hx, hy]
  rw [countColor_eq_sum, countColor_eq_sum]
  rw [← Finset.sum_erase_add _ _ hmem, ← Finset.sum_erase_add _ _ hmem]
  have hsame :
      (∑ p ∈ (((Finset.range 9) ×ˢ (Finset.range 9)).erase (x, y)),
        if setSq b x y v p.1 p.2 = c then 1 else 0)
      = ∑ p ∈ (((Finset.range 9) ×ˢ (Finset.range 9)).erase (x, y)),
          if b p.1 p.2 = c then 1 else 0 := by
    apply Finset.sum_congr rfl
    intro p hp
    have hpne : p ≠ (x, y) := Finset.ne_of_mem_erase hp
    have hcell : setSq b x y v p.1 p.2 = b p.1 p.2 := by
      apply setSq_ne
      rintro ⟨h1, h2⟩
      apply hpne
      cases p
      simp_all
    rw [hcell]
  rw [hsame]
  have hself : setSq b x y v (x, y).1 (x, y).2 = v := setSq_self b x y v
  rw [hself]
  have hif : (if b (x, y).1 (x, y).2 = c then (1 : Nat) else 0) = (if b x y = c then 1 else 0) := rfl
  rw [hif]
  omega

lemma countColor_eq_of_capturesOnly {e : Occ} {b bb : Board} (h : capturesOnly e b bb)
    {c : Occ} (hce : c ≠ e) (hcn : c ≠ Occ.NONE) : countColor bb c = countColor b c := by
  classical
  unfold countColor
  congr 1
  apply Finset.filter_congr
  intro p _
  rcases h p.1 p.2 with heq | ⟨hbe, hbn⟩
  · rw [heq]
  · rw [hbn, hbe]
    constructor
    · intro h2; exact absurd h2.symm hcn
    · intro h2; exact absurd h2.symm hce

lemma countColor_le_of_capturesOnly {e : Occ} {b bb : Board} (h : capturesOnly e b bb) :
    countColor bb e ≤ countColor b e := by
  classical
  unfold countColor
  apply Finset.card_le_card
  intro p hp
  simp only [Finset.mem_filter] at hp ⊢
  refine ⟨hp.1, ?_⟩
  rcases h p.1 p.2 with heq | ⟨hbe, _⟩
  · rw [← heq]; exact hp.2
  · exact hbe

/-- A friend outcome of the rowminus scan started at column y certifies a
contiguous enemy run on the k scanned cells, which fits above column 0. -/
lemma scanRowMinus_friend {b : Board} {color : Occ} {x : Nat} :
    ∀ {y k : Nat}, scanRowMinus b color x y = .friend k →
      k ≤ y + 1 ∧ ∀ i, i < k → b x (y - i) = enemyOf color := by
  intro y
  induction y with
  | zero =>
    intro k h
    unfold scanRowMinus at h
    by_cases h0 : b x 0 = Occ.NONE
    · rw [if_pos h0] at h
      exact absurd h (by simp)
    · rw [if_neg h0] at h
      by_cases h1 : b x 0 = enemyOf color
      · rw [if_pos h1] at h
        exact absurd h (by simp)
      · rw [if_neg h1] at h
        injection h with hk
        subst hk
        exact ⟨by omega, by intro i hi; omega⟩
  | succ y ih =>
    intro k h
    unfold scanRowMinus at h
    by_cases h0 : b x (y + 1) = Occ.NONE
    · rw [if_pos h0] at h
      exact absurd h (by simp)
    · rw [if_neg h0] at h
      by_cases h1 : b x (y + 1) = enemyOf color
      · rw [if_pos h1] at h
        cases hs : scanRowMinus b color x y with
        | empty => rw [hs] at h; exact absurd h (by simp [ScanRes.bump])
        | edge j => rw [hs] at h; exact absurd h (by simp [ScanRes.bump])
        | friend j =>
          rw [hs] at h
          simp only [ScanRes.bump] at h
          injection h with hk
          obtain ⟨hj, hcells⟩ := ih hs
          constructor
          · omega
          · intro i hi
            cases i with
            | zero => simpa using h1
            | succ i2 =>
              have hsub : y + 1 - (i2 + 1) = y - i2 := by omega
              rw [hsub]
              exact hcells i2 (by omega)
      · rw [if_neg h1] at h
        injection h with hk
        subst hk
        exact ⟨by omega, by intro i hi; omega⟩

/-- A friend outcome of the colminus scan started at row x certifies a
contiguous enemy run on the k scanned cells, which fits above row 0. -/
lemma scanColMinus_friend {b : Board} {color : Occ} {y : Nat} :
    ∀ {x k : Nat}, scanColMinus b color y x = .friend k →
      k ≤ x + 1 ∧ ∀ i, i < k → b (x - i) y = enemyOf color := by
  intro x
  induction x with
  | zero =>
    intro k h
    unfold scanColMinus at h
    by_cases h0 : b 0 y = Occ.NONE
    · rw [if_pos h0] at h
      exact absurd h (by simp)
    · rw [if_neg h0] at h
      by_cases h1 : b 0 y = enemyOf color
      · rw [if_pos h1] at h
        exact absurd h (by simp)
      · rw [if_neg h1] at h
        injection h with hk
        subst hk
        exact ⟨by omega, by intro i hi; omega⟩
  | succ x ih =>
    intro k h
    unfold scanColMinus at h
    by_cases h0 : b (x + 1) y = Occ.NONE
    · rw [if_pos h0] at h
      exact absurd h (by simp)
    · rw [if_neg h0] at h
      by_cases h1 : b (x + 1) y = enemyOf color
      · rw [if_pos h1] at h
        cases hs : scanColMinus b color y x with
        | empty => rw [hs] at h; exact absurd h (by simp [ScanRes.bump])
        | edge j => rw [hs] at h; exact absurd h (by simp [ScanRes.bump])
        | friend j =>
          rw [hs] at h
          simp only [ScanRes.bump] at h
          injection h with hk
          obtain ⟨hj, hcells⟩ := ih hs
          constructor
          · omega
          · intro i hi
            cases i with
            | zero => simpa using h1
            | succ i2 =>
              have hsub : x + 1 - (i2 + 1) = x - i2 := by omega
              rw [hsub]
              exact hcells i2 (by omega)
      · rw [if_neg h1] at h
        injection h with hk
        subst hk
        exact ⟨by omega, by intro i hi; omega⟩

/-- A friend outcome of the colplus scan certifies a contiguous enemy run on
the k scanned cells above the start row. -/
lemma scanColPlusAux_friend {b : Board} {color : Occ} {y : Nat} :
    ∀ {fuel x k : Nat}, scanColPlusAux b color y fuel x = .friend k →
      ∀ i, i < k → b (x + i) y = enemyOf color := by
  intro fuel
  induction fuel with
  | zero =>
    intro x k h
    exact absurd h (by simp [scanColPlusAux])
  | succ fuel ih =>
    intro x k h
    unfold scanColPlusAux at h
    by_cases h0 : b x y = Occ.NONE
    · rw [if_pos h0] at h
      exact absurd h (by simp)
    · rw [if_neg h0] at h
      by_cases h1 : b x y = enemyOf color
      · rw [if_pos h1] at h
        cases hs : scanColPlusAux b color y fuel (x + 1) with
        | empty => rw [hs] at h; exact absurd h (by simp [ScanRes.bump])
        | edge j => rw [hs] at h; exact absurd h (by simp [ScanRes.bump])
        | friend j =>
          rw [hs] at h
          simp only [ScanRes.bump] at h
          injection h with hk
          intro i hi
          cases i with
          | zero => simpa using h1
          | succ i2 =>
            have hadd : x + (i2 + 1) = (x + 1) + i2 := by omega
            rw [hadd]
            exact ih hs i2 (by omega)
      · rw [if_neg h1] at h
        injection h with hk
        subst hk
        intro i hi
        omega

/-- The rowminus removal loop only clears cells certified enemy by the scan. -/
lemma clearRowDown_capturesOnly {color : Occ} {x : Nat} :
    ∀ (k y : Nat) (b : Board), k ≤ y + 1 →
      (∀ i, i < k → b x (y - i) = enemyOf color) →
      capturesOnly (enemyOf color) b (clearRowDown b x y k) := by
  intro k
  induction k with
  | zero =>
    intro y b _ _
    exact capturesOnly_refl _ _
  | succ k ih =>
    intro y b hk hcells
    have h0 : b x y = enemyOf color := by simpa using hcells 0 (by omega)
    have hstep : capturesOnly (enemyOf color) b (setSq b x y Occ.NONE) :=
      capturesOnly_setSq h0
    have hrec : capturesOnly (enemyOf color) (setSq b x y Occ.NONE)
        (clearRowDown (setSq b x y Occ.NONE) x (y - 1) k) := by
      apply ih (y - 1) _ (by omega)
      intro i hi
      have hne : ¬(x = x ∧ y - 1 - i = y) := by
        rintro ⟨-, h2⟩
        omega
      rw [setSq_ne b x y Occ.NONE x (y - 1 - i) hne]
      have hsub : y - 1 - i = y - (i + 1) := by omega
      rw [hsub]
      exact hcells (i + 1) (by omega)
    exact capturesOnly_trans (enemyOf_ne_none color) hstep hrec

/-- The colminus removal loop only clears cells certified enemy by the scan. -/
lemma clearColDown_capturesOnly {color : Occ} {y : Nat} :
    ∀ (k x : Nat) (b : Board), k ≤ x + 1 →
      (∀ i, i < k → b (x - i) y = enemyOf color) →
      capturesOnly (enemyOf color) b (clearColDown b x y k) := by
  intro k
  induction k with
  | zero =>
    intro x b _ _
    exact capturesOnly_refl _ _
  | succ k ih =>
    intro x b hk hcells
    have h0 : b x y = enemyOf color := by simpa using hcells 0 (by omega)
    have hstep : capturesOnly (enemyOf color) b (setSq b x y Occ.NONE) :=
      capturesOnly_setSq h0
    have hrec : capturesOnly (enemyOf color) (setSq b x y Occ.NONE)
        (clearColDown (setSq b x y Occ.NONE) (x - 1) y k) := by
      apply ih (x - 1) _ (by omega)
      intro i hi
      have hne : ¬(x - 1 - i = x ∧ y = y) := by
        rintro ⟨h2, -⟩
        omega
      rw [setSq_ne b x y Occ.NONE (x - 1 - i) y hne]
      have hsub : x - 1 - i = x - (i + 1) := by omega
      rw [hsub]
      exact hcells (i + 1) (by omega)
    exact capturesOnly_trans (enemyOf_ne_none color) hstep hrec

/-- The colplus removal loop only clears cells certified enemy by the scan. -/
lemma clearColUp_capturesOnly {color : Occ} {y : Nat} :
    ∀ (k x : Nat) (b : Board),
      (∀ i, i < k → b (x + i) y = enemyOf color) →
      capturesOnly (enemyOf color) b (clearColUp b x y k) := by
  intro k
  induction k with
  | zero =>
    intro x b _
    exact capturesOnly_refl _ _
  | succ k ih =>
    intro x b hcells
    have h0 : b x y = enemyOf color := by simpa using hcells 0 (by omega)
    have hstep : capturesOnly (enemyOf color) b (setSq b x y Occ.NONE) :=
      capturesOnly_setSq h0
    have hrec : capturesOnly (enemyOf color) (setSq b x y Occ.NONE)
        (clearColUp (setSq b x y Occ.NONE) (x + 1) y k) := by
      apply ih (x + 1)
      intro i hi
      have hne : ¬(x + 1 + i = x ∧ y = y) := by
        rintro ⟨h2, -⟩
        omega
      rw [setSq_ne b x y Occ.NONE (x + 1 + i) y hne]
      have hadd : x + 1 + i = x + (i + 1) := by omega
      rw [hadd]
      exact hcells (i + 1) (by omega)
    exact capturesOnly_trans (enemyOf_ne_none color) hstep hrec

/-- A successful try_capture call only clears enemy cells. -/
lemma tryCapture_capturesOnly {b : Board} {color : Occ} {x y : Nat} {d : Direction}
    {r : Board × Nat} (h : tryCapture b color x y d = some r) :
    capturesOnly (enemyOf color) b r.1 := by
  cases d <;> simp only [tryCapture] at h
  case rowminus =>
    cases hs : scanRowMinus b color x y <;> rw [hs] at h
    case empty =>
      injection h with h2; subst h2; exact capturesOnly_refl _ _
    case edge =>
      injection h with h2; subst h2; exact capturesOnly_refl _ _
    case friend k =>
      injection h with h2
      subst h2
      obtain ⟨hk, hcells⟩ := scanRowMinus_friend hs
      exact clearRowDown_capturesOnly k y b hk hcells
  case rowplus =>
    cases hs : scanRowPlus b color x y <;> rw [hs] at h
    case empty =>
      injection h with h2; subst h2; exact capturesOnly_refl _ _
    case edge =>
      injection h with h2; subst h2; exact capturesOnly_refl _ _
    case friend k =>
      exact absurd h (by simp)
  case colminus =>
    cases hs : scanColMinus b color y x <;> rw [hs] at h
    case empty =>
      injection h with h2; subst h2; exact capturesOnly_refl _ _
    case edge =>
      injection h with h2; subst h2; exact capturesOnly_refl _ _
    case friend k =>
      injection h with h2
      subst h2
      obtain ⟨hk, hcells⟩ := scanColMinus_friend hs
      exact clearColDown_capturesOnly k x b hk hcells
  case colplus =>
    cases hs : scanColPlus b color x y <;> rw [hs] at h
    case empty =>
      injection h with h2; subst h2; exact capturesOnly_refl _ _
    case edge =>
      injection h with h2; subst h2; exact capturesOnly_refl _ _
    case friend k =>
      injection h with h2
      subst h2
      exact clearColUp_capturesOnly k x b (scanColPlusAux_friend hs)

/-- The corner chain only clears a corner cell it has checked to be enemy. -/
lemma cornerCapture_capturesOnly (b : Board) (dest : List Char) (color : Occ) :
    capturesOnly (enemyOf color) b (cornerCapture b dest color).1 := by
  unfold cornerCapture
  split_ifs with h1 h2 h3 h4 h5 h6 h7 h8
  all_goals
    first
      | exact capturesOnly_setSq (And.right (And.right (by assumption : _ ∧ _ ∧ _)))
      | exact capturesOnly_refl _ _

/-- One guarded directional step of piece_capture only clears enemy cells. -/
lemma step_capturesOnly {color : Occ} {bb : Board} {r : Board × Nat}
    (cond : Prop) [Decidable cond] {x y : Nat} {d : Direction}
    (h : (if cond then tryCapture bb color x y d else some (bb, 0)) = some r) :
    capturesOnly (enemyOf color) bb r.1 := by
  split at h
  · exact tryCapture_capturesOnly h
  · injection h with h2; subst h2; exact capturesOnly_refl _ _

/-- The directional cascade of piece_capture only clears enemy cells. -/
lemma pieceCaptureAux_capturesOnly {b0 : Board} {c0 : Nat} {color : Occ} {x y : Nat}
    {r : Board × Nat} (h : pieceCaptureAux b0 c0 color x y = some r) :
    capturesOnly (enemyOf color) b0 r.1 := by
  unfold pieceCaptureAux at h
  split at h
  · exact absurd h (by simp)
  case _ r1 heq1 =>
    split at h
    · exact absurd h (by simp)
    case _ r2 heq2 =>
      split at h
      · exact absurd h (by simp)
      case _ r3 heq3 =>
        split at h
        · exact absurd h (by simp)
        case _ r4 heq4 =>
          injection h with h2
          subst h2
          have s1 := step_capturesOnly _ heq1
          have s2 := step_capturesOnly _ heq2
          have s3 := step_capturesOnly _ heq3
          have s4 := step_capturesOnly _ heq4
          have hne := enemyOf_ne_none color
          exact capturesOnly_trans hne s1
            (capturesOnly_trans hne s2 (capturesOnly_trans hne s3 s4))

/-- A successful piece_capture call only clears enemy cells. -/
lemma pieceCapture_capturesOnly {b : Board} {dest : List Char} {color : Occ}
    {r : Board × Nat} (h : pieceCapture b dest color = some r) :
    capturesOnly (enemyOf color) b r.1 := by
  unfold pieceCapture at h
  exact capturesOnly_trans (enemyOf_ne_none color)
    (cornerCapture_capturesOnly b dest color) (pieceCaptureAux_capturesOnly h)

/-- A row letter of the board translates to a row coordinate below 9. -/
lemma rowChar_lt {c : Char} (h : c ∈ rowChars) : c.toNat - 97 < 9 := by
  fin_cases h <;> decide

/-- Everything the acceptance of is_valid_move guarantees about the move:
both strings are two characters, the row letters are on the board, the
column digits are the characters of values 1 to 9, the destination square is
empty and the origin square holds the piece of the active player (which is
therefore not NONE). -/
lemma isValidMoveR_ok_facts {st : GameState} {f t : List Char}
    (h : isValidMoveR st f t = .ok) :
    ∃ fc fd tc td, f = [fc, fd] ∧ t = [tc, td] ∧
      fc ∈ rowChars ∧ tc ∈ rowChars ∧
      49 ≤ fd.toNat ∧ fd.toNat ≤ 57 ∧ 49 ≤ td.toNat ∧ td.toNat ≤ 57 ∧
      occupantAt st.board t = Occ.NONE ∧
      occupantAt st.board f = st.player ∧ st.player ≠ Occ.NONE := by
  rcases t with - | ⟨tc, - | ⟨td, - | ⟨t3, ts⟩⟩⟩ <;>
    rcases f with - | ⟨fc, - | ⟨fd, - | ⟨f3, fs⟩⟩⟩ <;>
    simp only [isValidMoveR] at h <;>
    try (split at h <;> exact absurd h (by simp))
  by_cases htc : tc ∈ rowChars
  case neg => rw [if_pos htc] at h; exact absurd h (by simp)
  rw [if_neg (not_not_intro htc)] at h
  by_cases hfc : fc ∈ rowChars
  case neg => rw [if_pos hfc] at h; exact absurd h (by simp)
  rw [if_neg (not_not_intro hfc)] at h
  by_cases hdiag : td ≠ fd ∧ tc ≠ fc
  case pos => rw [if_pos hdiag] at h; exact absurd h (by simp)
  rw [if_neg hdiag] at h
  cases hn : pyCharInt td with
  | none => rw [hn] at h; exact absurd h (by simp)
  | some n =>
    rw [hn] at h
    simp only at h
    by_cases hnr : n < 1 ∨ 9 < n
    case pos => rw [if_pos hnr] at h; exact absurd h (by simp)
    rw [if_neg hnr] at h
    cases hm : pyCharInt fd with
    | none => rw [hm] at h; exact absurd h (by simp)
    | some m =>
      rw [hm] at h
      simp only at h
      by_cases hmr : m < 1 ∨ 9 < m
      case pos => rw [if_pos hmr] at h; exact absurd h (by simp)
      rw [if_neg hmr] at h
      by_cases hdest : occupantAt st.board [tc, td] ≠ Occ.NONE
      case pos => rw [if_pos hdest] at h; exact absurd h (by simp)
      rw [if_neg hdest] at h
      by_cases hsrc : occupantAt st.board [fc, fd] = Occ.NONE
      case pos => rw [if_pos hsrc] at h; exact absurd h (by simp)
      rw [if_neg hsrc] at h
      by_cases hown : occupantAt st.board [fc, fd] ≠ st.player
      case pos => rw [if_pos hown] at h; exact absurd h (by simp)
      rw [if_neg hown] at h
      have hdestEq : occupantAt st.board [tc, td] = Occ.NONE := not_not.mp hdest
      have hownEq : occupantAt st.board [fc, fd] = st.player := not_not.mp hown
      have htdB : 48 ≤ td.toNat ∧ td.toNat ≤ 57 ∧ n = td.toNat - 48 := by
        unfold pyCharInt at hn
        split at hn
        case isTrue hcond =>
          injection hn with h2
          exact ⟨hcond.1, hcond.2, h2.symm⟩
        case isFalse => exact absurd hn (by simp)
      have hfdB : 48 ≤ fd.toNat ∧ fd.toNat ≤ 57 ∧ m = fd.toNat - 48 := by
        unfold pyCharInt at hm
        split at hm
        case isTrue hcond =>
          injection hm with h2
          exact ⟨hcond.1, hcond.2, h2.symm⟩
        case isFalse => exact absurd hm (by simp)
      refine ⟨fc, fd, tc, td, rfl, rfl, hfc, htc, by omega, by omega, by omega, by omega,
        hdestEq, hownEq, ?_⟩
      rw [← hownEq]
      exact hsrc

/-- C5: for every accepted move, the total number of pieces of the mover
color on the board is unchanged by make_move (the relocation adds one at the
destination and removes one at the origin, and capture resolution only
clears enemy cells, never a cell of the mover color), and the total number
of the opponent pieces is non-increasing. -/
theorem legal_move_piece_counts (st : GameState) (f t : List Char) (st2 : GameState)
    (h : makeMove st f t = some (true, st2)) :
    countColor st2.board st.player = countColor st.board st.player ∧
    countColor st2.board (enemyOf st.player) ≤ countColor st.board (enemyOf st.player) := by
  unfold makeMove at h
  split at h
  · exact absurd h (by simp)
  split at h
  · exact absurd h (by simp)
  · exact absurd h (by simp)
  rename_i hok
  split at h
  · exact absurd h (by simp)
  rename_i r hpc
  injection h with h2
  injection h2 with hb hst
  subst hst
  obtain ⟨fc, fd, tc, td, hf, ht, hfcm, htcm, hfd1, hfd2, htd1, htd2, hdest, hown, hpl⟩ :=
    isValidMoveR_ok_facts hok
  subst hf
  subst ht
  rw [hown] at hpc
  set xt := tc.toNat - 97 with hxtdef
  set yt := (td.toNat - 48) - 1 with hytdef
  set xf := fc.toNat - 97 with hxfdef
  set yf := (fd.toNat - 48) - 1 with hyfdef
  have hxt : xt < 9 := rowChar_lt htcm
  have hxf : xf < 9 := rowChar_lt hfcm
  have hyt : yt < 9 := by rw [hytdef]; omega
  have hyf : yf < 9 := by rw [hyfdef]; omega
  have hdest2 : st.board xt yt = Occ.NONE := hdest
  have hown2 : st.board xf yf = st.player := hown
  have hpc2 : pieceCapture (setSq (setSq st.board xt yt st.player) xf yf Occ.NONE)
      [tc, td] st.player = some r := hpc
  have hcap := pieceCapture_capturesOnly hpc2
  have hneq : ¬(xf = xt ∧ yf = yt) := by
    rintro ⟨e1, e2⟩
    apply hpl
    rw [← hown2, e1, e2]
    exact hdest2
  have hb1f : setSq st.board xt yt st.player xf yf = st.player := by
    rw [setSq_ne st.board xt yt st.player xf yf hneq]
    exact hown2
  have hen : enemyOf st.player ≠ Occ.NONE := enemyOf_ne_none st.player
  have hpe : st.player ≠ enemyOf st.player := ne_enemyOf_self hpl
  have c1m := countColor_setSq st.board xt yt st.player st.player hxt hyt
  rw [hdest2, if_neg (fun hh => hpl hh.symm), if_pos rfl] at c1m
  have c2m := countColor_setSq (setSq st.board xt yt st.player) xf yf Occ.NONE st.player hxf hyf
  rw [hb1f, if_pos rfl, if_neg (fun hh => hpl hh.symm)] at c2m
  have c1e := countColor_setSq st.board xt yt st.player (enemyOf st.player) hxt hyt
  rw [hdest2, if_neg (fun hh => hen hh.symm), if_neg hpe] at c1e
  have c2e := countColor_setSq (setSq st.board xt yt st.player) xf yf Occ.NONE
    (enemyOf st.player) hxf hyf
  rw [hb1f, if_neg hpe, if_neg (fun hh => hen hh.symm)] at c2e
  have hcm : countColor r.1 st.player
      = countColor (setSq (setSq st.board xt yt st.player) xf yf Occ.NONE) st.player :=
    countColor_eq_of_capturesOnly hcap hpe hpl
  have hce : countColor r.1 (enemyOf st.player)
      ≤ countColor (setSq (setSq st.board xt yt st.player) xf yf Occ.NONE)
          (enemyOf st.player) :=
    countColor_le_of_capturesOnly hcap
  constructor
  · show countColor r.1 st.player = countColor st.board st.player
    omega
  · show countColor r.1 (enemyOf st.player) ≤ countColor st.board (enemyOf st.player)
    omega

/-- C1: the four directional capture scans do not behave identically.  The
row-decreasing scan captures a closed run of two RED pieces and credits the
RED captured count by two, as the claim describes; but the same
configuration rotated into the row-increasing direction makes make_move
raise (the rowplus removal loop of try_capture reads the never-assigned
local save_y, an UnboundLocalError), embedded as none. -/
theorem capture_scan_directions_not_identical :
    (makeMove runCaptureState ['e', '9'] ['e', '4']).map
        (fun p => (p.1, p.2.capRed, p.2.board 4 1, p.2.board 4 2, p.2.board 4 0,
          countColor p.2.board Occ.RED))
      = some (true, 2, Occ.NONE, Occ.NONE, Occ.BLACK, 2) ∧
    makeMove crashState ['a', '3'] ['e', '3'] = none := by
  constructor
  · decide
  · rfl

/-- C2: a row-decreasing scan that walks a RED run to the board edge without
meeting a closing BLACK piece still adds the run length to the RED captured
count: after the move e9 to e3 the count is credited 2 although both RED
pieces e1 and e2 are still on the board and the RED piece total is
unchanged. -/
theorem edge_run_miscounts_captures :
    (makeMove edgeRunState ['e', '9'] ['e', '3']).map
        (fun p => (p.1, p.2.capRed, p.2.board 4 0, p.2.board 4 1,
          countColor p.2.board Occ.RED))
      = some (true, 2, Occ.RED, Occ.RED, 2) := by decide

/-- C3: every call of make_move that reports False leaves the game state
exactly as it was: both rejection paths return before any write. -/
theorem rejected_move_preserves_state (st : GameState) (f t : List Char) (st2 : GameState)
    (h : makeMove st f t = some (false, st2)) : st2 = st := by
  unfold makeMove at h
  split at h
  · injection h with h2
    injection h2 with hb hst
    exact hst.symm
  · split at h
    · exact absurd h (by simp)
    · injection h with h2
      injection h2 with hb hst
      exact hst.symm
    · split at h
      · exact absurd h (by simp)
      · injection h with h2
        injection h2 with hb hst
        exact absurd hb (by simp)

/-- Witness for C3: the move a1 to a1 is rejected from the initial state and
the state is unchanged. -/
theorem rejected_move_preserves_state_witness :
    makeMove initGame ['a', '1'] ['a', '1'] = some (false, initGame) ∧ initGame = initGame :=
  ⟨rfl, rejected_move_preserves_state initGame ['a', '1'] ['a', '1'] initGame rfl⟩

/-- C4: a position string whose second character is not a digit is not
rejected by a pure return value: the validator calls int() on it before any
digit check and the ValueError escapes make_move, embedded as none. -/
theorem malformed_column_raises : makeMove initGame ['a', '1'] ['a', 'x'] = none := rfl

/-- C6: get_game_state is a pure function of the two piece counts: it is
UNFINISHED exactly when both colors keep more than one piece, reports
BLACK_WON when only BLACK keeps more than one piece and RED_WON when only
RED does; and once the state is not UNFINISHED every make_move call is
rejected with the state unchanged. -/
theorem game_status_counts_and_rejection :
    (∀ b : Board,
      (getGameState b = GameStatus.UNFINISHED ↔
        1 < countColor b Occ.BLACK ∧ 1 < countColor b Occ.RED) ∧
      (1 < countColor b Occ.BLACK ∧ countColor b Occ.RED ≤ 1 →
        getGameState b = GameStatus.BLACK_WON) ∧
      (1 < countColor b Occ.RED ∧ countColor b Occ.BLACK ≤ 1 →
        getGameState b = GameStatus.RED_WON)) ∧
    (∀ (st : GameState) (f t : List Char),
      getGameState st.board ≠ GameStatus.UNFINISHED → makeMove st f t = some (false, st)) := by
  constructor
  · intro b
    refine ⟨?_, ?_, ?_⟩
    · constructor
      · intro h
        by_cases hc : 1 < countColor b Occ.BLACK ∧ 1 < countColor b Occ.RED
        · exact hc
        · unfold getGameState at h
          rw [if_neg hc] at h
          split_ifs at h <;> simp at h
      · intro hc
        unfold getGameState
        rw [if_pos hc]
    · rintro ⟨hb, hr⟩
      unfold getGameState
      rw [if_neg (by omega : ¬(1 < countColor b Occ.BLACK ∧ 1 < countColor b Occ.RED)),
        if_pos hb]
    · rintro ⟨hr, hb⟩
      unfold getGameState
      rw [if_neg (by omega : ¬(1 < countColor b Occ.BLACK ∧ 1 < countColor b Occ.RED)),
        if_neg (by omega : ¬(1 < countColor b Occ.BLACK))]
  · intro st f t hne
    unfold makeMove
    rw [if_pos hne]

/-- Witness for C6: a board with two BLACK pieces and one RED piece reports
BLACK_WON, and a move submitted on it is rejected without change. -/
theorem game_status_counts_and_rejection_witness :
    getGameState wonBoard = GameStatus.BLACK_WON ∧
    makeMove overState ['a', '1'] ['a', '3'] = some (false, overState) :=
  ⟨(game_status_counts_and_rejection.1 wonBoard).2.1 ⟨by decide, by decide⟩,
   game_status_counts_and_rejection.2 overState ['a', '1'] ['a', '3'] (by decide)⟩

/-- C7 counterexample: the accepted move e9 to e3 captures the RED piece e2,
ends the game with BLACK_WON, and the active player still changes from BLACK
to RED, contradicting the claim that the active player does not change after
the move that ends the game. -/
theorem terminal_move_toggles_player :
    (makeMove terminalState ['e', '9'] ['e', '3']).map
        (fun p => (p.1, p.2.player, getGameState p.2.board))
      = some (true, Occ.RED, GameStatus.BLACK_WON) ∧
    terminalState.player = Occ.BLACK ∧ Occ.RED ≠ Occ.BLACK := by
  refine ⟨by decide, by decide, by decide⟩

/-- C7 amended: the active player toggles exactly once after every accepted
move, terminal or not, and does not change after any rejected move. -/
theorem player_toggle_on_accept (st : GameState) (f t : List Char) (r : Bool) (st2 : GameState)
    (h : makeMove st f t = some (r, st2)) :
    st2.player = if r then (if st.player = Occ.RED then Occ.BLACK else Occ.RED)
      else st.player := by
  unfold makeMove at h
  split at h
  · injection h with h2
    injection h2 with hb hst
    subst hb
    subst hst
    simp
  · split at h
    · exact absurd h (by simp)
    · injection h with h2
      injection h2 with hb hst
      subst hb
      subst hst
      simp
    · split at h
      · exact absurd h (by simp)
      · injection h with h2
        injection h2 with hb hst
        subst hb
        subst hst
        simp

/-- Witness for C7: the accepted opening move a1 to b1 flips the active
player from BLACK to RED. -/
theorem player_toggle_on_accept_witness : acceptedMove.2.player = Occ.RED := by
  have h := player_toggle_on_accept initGame ['a', '1'] ['b', '1']
    acceptedMove.1 acceptedMove.2 rfl
  rw [h]
  decide

/-- C8: for each of the four corners, and with either of the two orthogonal
corner neighbors as the destination of the move, the corner chain captures
an enemy corner piece whenever the other neighbor holds a mover piece: it
clears the corner and adds one to the enemy captured count. -/
theorem corner_capture_all_corners (b : Board) (color : Occ)
    (dest other corner : List Char)
    (hmem : (dest, other, corner) ∈ cornerCases)
    (hcolor : color = Occ.BLACK ∨ color = Occ.RED)
    (hother : occupantAt b other = color)
    (hcorner : occupantAt b corner = enemyOf color) :
    cornerCapture b dest color = (setSqPos b corner Occ.NONE, 1) := by
  simp only [cornerCases, List.mem_cons, List.not_mem_nil, or_false, Prod.mk.injEq] at hmem
  rcases hmem with ⟨h1, h2, h3⟩ | ⟨h1, h2, h3⟩ | ⟨h1, h2, h3⟩ | ⟨h1, h2, h3⟩ |
    ⟨h1, h2, h3⟩ | ⟨h1, h2, h3⟩ | ⟨h1, h2, h3⟩ | ⟨h1, h2, h3⟩ <;>
    subst h1 <;> subst h2 <;> subst h3 <;>
    simp +decide [cornerCapture, hother, hcorner]

/-- Witness for C8: with BLACK on a2 and b1 and RED on the a1 corner, the
corner chain run for the destination a2 clears a1 and credits RED by one. -/
theorem corner_capture_all_corners_witness :
    cornerCapture cornerBoard ['a', '2'] Occ.BLACK
      = (setSqPos cornerBoard ['a', '1'] Occ.NONE, 1) :=
  corner_capture_all_corners cornerBoard Occ.BLACK ['a', '2'] ['b', '1'] ['a', '1']
    (by decide) (Or.inl rfl) (by decide) (by decide)

/-- C9 counterexample: from the initial state, the move i1 to i2 has a source
square not owned by the active player BLACK and an occupied destination; the
validator reports the destination, not the ownership, because it checks
destination emptiness first, contradicting the claimed order. -/
theorem dest_check_before_ownership_cex :
    occupantAt initGame.board ['i', '1'] ≠ initGame.player ∧
    occupantAt initGame.board ['i', '2'] ≠ Occ.NONE ∧
    isValidMoveR initGame ['i', '1'] ['i', '2'] = VRes.rej Reason.destOccupied ∧
    Reason.destOccupied ≠ Reason.notOwned := by decide

/-- C9 amended: the validator checks the format of both strings, the
diagonal rule and the digit ranges first, then destination emptiness before
source ownership: any move of well-formed straight shape whose destination
is occupied is reported as destOccupied, also when its source square is not
the active player piece. -/
theorem dest_occupied_reported_first (st : GameState) (fc fd tc td : Char)
    (hfc : fc ∈ rowChars) (htc : tc ∈ rowChars)
    (hfd1 : 49 ≤ fd.toNat) (hfd2 : fd.toNat ≤ 57)
    (htd1 : 49 ≤ td.toNat) (htd2 : td.toNat ≤ 57)
    (hstraight : td = fd ∨ tc = fc)
    (hsrc : occupantAt st.board [fc, fd] ≠ st.player)
    (hdest : occupantAt st.board [tc, td] ≠ Occ.NONE) :
    isValidMoveR st [fc, fd] [tc, td] = VRes.rej Reason.destOccupied := by
  simp only [isValidMoveR]
  rw [if_neg (not_not_intro htc), if_neg (not_not_intro hfc)]
  rw [if_neg (fun hc => hstraight.elim (fun he => hc.1 he) (fun he => hc.2 he))]
  have hn : pyCharInt td = some (td.toNat - 48) := by
    unfold pyCharInt
    rw [if_pos (by omega)]
  rw [hn]
  simp only
  rw [if_neg (by omega : ¬(td.toNat - 48 < 1 ∨ 9 < td.toNat - 48))]
  have hm : pyCharInt fd = some (fd.toNat - 48) := by
    unfold pyCharInt
    rw [if_pos (by omega)]
  rw [hm]
  simp only
  rw [if_neg (by omega : ¬(fd.toNat - 48 < 1 ∨ 9 < fd.toNat - 48))]
  rw [if_pos hdest]

/-- Witness for C9: from the initial state, the move i3 to i4 (RED source,
occupied destination, BLACK to move) is reported destOccupied. -/
theorem dest_occupied_reported_first_witness :
    isValidMoveR initGame ['i', '3'] ['i', '4'] = VRes.rej Reason.destOccupied :=
  dest_occupied_reported_first initGame 'i' '3' 'i' '4' (by decide) (by decide)
    (by decide) (by decide) (by decide) (by decide) (Or.inr rfl) (by decide) (by decide)

/-- C10: position_to_coords followed by coords_to_position is the identity
on every valid position string, and coords_to_position followed by
position_to_coords is the identity on every coordinate pair below 9. -/
theorem position_coords_roundtrip :
    (∀ c : Char, c ∈ rowChars → ∀ d : Char, d ∈ digitChars →
      coordsToPosition (positionToCoords [c, d]).1 (positionToCoords [c, d]).2 = [c, d]) ∧
    (∀ x : Nat, x < 9 → ∀ y : Nat, y < 9 → positionToCoords (coordsToPosition x y) = (x, y)) := by
  constructor
  · decide
  · decide

/-- Witness for C10: both round trips at the position e5 and the coordinate
pair (2, 7). -/
theorem position_coords_roundtrip_witness :
    coordsToPosition (positionToCoords ['e', '5']).1 (positionToCoords ['e', '5']).2
      = ['e', '5'] ∧
    positionToCoords (coordsToPosition 2 7) = (2, 7) :=
  ⟨position_coords_roundtrip.1 'e' (by decide) '5' (by decide),
   position_coords_roundtrip.2 2 (by decide) 7 (by decide)⟩

/-- Witness for C5: the accepted opening move a1 to b1 keeps nine BLACK
pieces on the board and does not increase the RED piece count. -/
theorem legal_move_piece_counts_witness :
    countColor acceptedMove.2.board initGame.player
      = countColor initGame.board initGame.player ∧
    countColor acceptedMove.2.board (enemyOf initGame.player)
      ≤ countColor initGame.board (enemyOf initGame.player) :=
  legal_move_piece_counts initGame ['a', '1'] ['b', '1'] acceptedMove.2 rfl

end HasamiShogi
